import Mathlib

/-
Verification of the ingestion / store / query core of the AI news aggregator
(the Flask backend `backend/app.py` emitted by `setup-project.sh`).

The embedding is shallow: the global mutable list `news_storage` is passed
explicitly as a `List Article`; the ambient effects of a scrape pass (the
process hash function used by Python's `hash`, the HTTP layer used by
`requests.get`, and the wall clock read by `str(datetime.now())`) are
parameters of the functions that use them.
-/

namespace AINews

/-- The article record built in `scrape_rss_feed` (app.py lines 145-154). -/
structure Article where
  id : Int
  title : String
  summary : String
  content : String
  link : String
  published : String
  source : String
  scraped_at : String
deriving DecidableEq, Repr

/-- One parsed RSS entry as exposed by feedparser: `entry.summary` and
`entry.published` may be absent (the code tests `hasattr`), which is modelled
with `Option`. -/
structure Entry where
  title : String
  link : String
  summary : Option String
  published : Option String
deriving DecidableEq, Repr

/-- A successfully fetched and parsed feed: `feed.feed.title` may be absent
(modelled with `Option`), `feed.entries` is the entry list. -/
structure Feed where
  title : Option String
  entries : List Entry
deriving DecidableEq, Repr

/-- The outcome of `requests.get(url, ...)`: either a completed HTTP response
carrying a status code and a body (requests does NOT raise on non-2xx
statuses), or a raised exception (timeout, DNS failure, connection error). -/
inductive HttpResult where
  | success (status : Nat) (body : String)
  | failure
deriving DecidableEq, Repr

/-- The function `fetch_article_content` (app.py lines 122-131), applied to the
outcome of its `requests.get` call.  On a completed response it returns the
first 500 characters of the body followed by the marker; the `except` branch
returns the empty string.  Note the code never inspects `response.status_code`. -/
def fetch_article_content : HttpResult → String
  | .success _ body => body.take 500 ++ "..."
  | .failure => ""

/-- The article dictionary literal of `scrape_rss_feed` (app.py lines 145-154).
`store` is the snapshot of the global `news_storage`, `hashFn` is the process's
string hash (Python `hash`), `net` is the HTTP layer and `now` the clock value. -/
def mk_article (store : List Article) (hashFn : String → Int)
    (net : String → HttpResult) (now : String) (feed : Feed) (e : Entry) : Article :=
  { id := hashFn e.link
    title := e.title
    summary := e.summary.getD ""
    content := if store.length < 50 then fetch_article_content (net e.link) else ""
    link := e.link
    published := e.published.getD now
    source := feed.title.getD "Unknown Source"
    scraped_at := now }

/-- The function `scrape_rss_feed` (app.py lines 133-160).  `res = none` is the
`except` path (fetch or parse of the feed raised): it returns `[]`.  Otherwise
the 10 most recent entries are kept, entries whose `link` already occurs in the
store snapshot are skipped, and the rest are normalised into articles. -/
def scrape_rss_feed (store : List Article) (hashFn : String → Int)
    (net : String → HttpResult) (now : String) (res : Option Feed) : List Article :=
  match res with
  | none => []
  | some feed =>
      (feed.entries.take 10).filterMap fun e =>
        if store.any fun a => a.link == e.link then none
        else some (mk_article store hashFn net now feed e)

/-- The accumulation loop of `scrape_all_feeds` (app.py lines 165-170): every
configured feed is scraped in order against the same store snapshot and the
results are concatenated. -/
def all_new_articles (store : List Article) (hashFn : String → Int)
    (net : String → HttpResult) (now : String) (feeds : List (Option Feed)) : List Article :=
  (feeds.map (scrape_rss_feed store hashFn net now)).flatten

/-- One step of the update loop of `scrape_all_feeds` (app.py lines 173-181):
the first stored article with the same `id` is replaced in place; if none
exists the article is appended at the end. -/
def upsert : List Article → Article → List Article
  | [], a => [a]
  | b :: s, a => if b.id == a.id then a :: s else b :: upsert s a

/-- The full update loop of `scrape_all_feeds` (app.py lines 173-181). -/
def mergeInto (store incoming : List Article) : List Article :=
  incoming.foldl upsert store

/-- The comparison used by `news_storage.sort(key=lambda x: x['published'],
reverse=True)` (app.py line 184): a stable sort descending by the raw
`published` string. -/
def pubDescLe (x y : Article) : Bool :=
  decide (y.published ≤ x.published)

/-- Lines 173-185 of app.py: upsert every incoming article, then sort the
collection descending by `published` and truncate to the first 100 entries. -/
def mergeAndTrim (store incoming : List Article) : List Article :=
  ((mergeInto store incoming).mergeSort pubDescLe).take 100

/-- The function `scrape_all_feeds` (app.py lines 162-187): scrape every feed
against the pass's store snapshot, then merge and truncate. -/
def scrape_all_feeds (store : List Article) (hashFn : String → Int)
    (net : String → HttpResult) (now : String) (feeds : List (Option Feed)) : List Article :=
  mergeAndTrim store (all_new_articles store hashFn net now feeds)

/-- Python's substring test `needle in hay` on strings, as used by
`search_news` (app.py line 238). -/
def pyIn (needle hay : String) : Bool :=
  decide (needle.data <:+: hay.data)

/-- The JSON payload of `/api/news/search` (app.py lines 241-244). -/
structure SearchResult where
  articles : List Article
  total : Nat
deriving DecidableEq, Repr

/-- The handler `search_news` (app.py lines 229-244): a falsy (empty) query
short-circuits to an empty result; otherwise the store is filtered by a
case-insensitive substring test against `title` or `summary`. -/
def search_news (store : List Article) (q : String) : SearchResult :=
  if q = "" then { articles := [], total := 0 }
  else
    let filtered := store.filter fun a =>
      pyIn q.toLower a.title.toLower || pyIn q.toLower a.summary.toLower
    { articles := filtered, total := filtered.length }

/-- Spec-side predicate: `q` is a case-insensitive substring of the article's
`title` or of its `summary`. -/
def ciMatch (q : String) (a : Article) : Prop :=
  q.toLower.data <:+: a.title.toLower.data ∨ q.toLower.data <:+: a.summary.toLower.data

instance (q : String) (a : Article) : Decidable (ciMatch q a) := by
  unfold ciMatch
  infer_instance

/-- Modelled from the spec (section 4.5): `search(query)` returns exactly the
articles matched case-insensitively on `title` OR `summary`, with `total` the
number of matches, and the empty query returns an empty result with total 0. -/
def spec_search (store : List Article) (q : String) : SearchResult :=
  if q = "" then { articles := [], total := 0 }
  else
    { articles := store.filter fun a => decide (ciMatch q a)
      total := store.countP fun a => decide (ciMatch q a) }

/-- The JSON payload of `/api/news` (app.py lines 221-227). -/
structure NewsPage where
  articles : List Article
  total : Nat
  page : Int
  per_page : Int
  total_pages : Int
deriving DecidableEq, Repr

/-- Python list slicing `l[start:stop]` with integer bounds: negative indices
count from the end, and both bounds are clamped to `[0, len(l)]`. -/
def pySlice {α : Type} (l : List α) (start stop : Int) : List α :=
  (l.take
      (if stop < 0 then max ((l.length : Int) + stop) 0
       else min stop (l.length : Int)).toNat).drop
    (if start < 0 then max ((l.length : Int) + start) 0
     else min start (l.length : Int)).toNat

/-- The sort of `get_news` (app.py line 211): a stable sort on the selected
string field, descending when `order == 'desc'`.  The dynamic field lookup
`x[sort_by]` is modelled by the selector `key`. -/
def sorted_news (store : List Article) (key : Article → String) (desc : Bool) : List Article :=
  store.mergeSort fun x y => if desc then decide (key y ≤ key x) else decide (key x ≤ key y)

/-- The handler `get_news` (app.py lines 204-227): sort, slice
`[(page-1)*per_page : (page-1)*per_page + per_page]` with Python slice
semantics, and report `total` and `total_pages = (total + per_page - 1) //
per_page` (Python floor division). -/
def get_news (store : List Article) (key : Article → String) (desc : Bool)
    (page per_page : Int) : NewsPage :=
  let srt := sorted_news store key desc
  let start := (page - 1) * per_page
  { articles := pySlice srt start (start + per_page)
    total := srt.length
    page := page
    per_page := per_page
    total_pages := Int.fdiv ((srt.length : Int) + per_page - 1) per_page }

/-! ### Demonstration inputs used by counterexamples and witnesses -/

/-- A fresh entry with a distinct link per index. -/
def demo_entry (k : Nat) : Entry :=
  { title := "t", link := "l" ++ toString k, summary := none, published := none }

/-- A single-entry feed. -/
def demo_feed0 : Feed :=
  { title := none, entries := [demo_entry 0] }

/-- The same feed as a successful fetch outcome. -/
def demo_feed_small : Option Feed :=
  some demo_feed0

/-- The i-th demonstration feed: ten entries with fresh links. -/
def demo_feed_at (i : Nat) : Option Feed :=
  some { title := none, entries := (List.range 10).map fun j => demo_entry (10 * i + j) }

/-- Six feeds of ten entries each, sixty distinct links in total. -/
def demo_feeds6 : List (Option Feed) :=
  [demo_feed_at 0, demo_feed_at 1, demo_feed_at 2, demo_feed_at 3, demo_feed_at 4, demo_feed_at 5]

/-- An HTTP layer whose every request completes with body "BODY". -/
def demo_net : String → HttpResult := fun _ => HttpResult.success 200 "BODY"

/-- A three-article store used by query witnesses. -/
def demo_store : List Article :=
  [{ id := 1, title := "OpenAI releases GPT-4 Turbo", summary := "big model news", content := "",
     link := "a", published := "2024-03", source := "A", scraped_at := "s" },
   { id := 2, title := "Robotics digest", summary := "an ML roundup", content := "",
     link := "b", published := "2024-02", source := "B", scraped_at := "s" },
   { id := 3, title := "Policy update", summary := "regulation news", content := "",
     link := "c", published := "2024-01", source := "C", scraped_at := "s" }]

/-! ### Helper lemmas about scraping -/

lemma string_take_of_le (s : String) (n : Nat) (h : s.length ≤ n) : s.take n = s := by
  apply String.ext
  rw [String.data_take]
  exact List.take_of_length_le h

/-- On a short body the preview is the whole body followed by the marker. -/
lemma fetch_short (st : Nat) (body : String) (h : body.length ≤ 500) :
    fetch_article_content (HttpResult.success st body) = body ++ "..." := by
  show body.take 500 ++ "..." = body ++ "..."
  rw [string_take_of_le body 500 h]

lemma filterMap_some_eq_map {α β : Type} (g : α → β) (l : List α) :
    (l.filterMap fun e => some (g e)) = l.map g := by
  induction l with
  | nil => rfl
  | cons e l ih => simp [List.filterMap_cons, ih]

/-- Against an empty store no entry is skipped: scraping a parsed feed is just
normalising its ten most recent entries. -/
lemma scrape_empty_store (hashFn : String → Int) (net : String → HttpResult)
    (now : String) (f : Feed) :
    scrape_rss_feed [] hashFn net now (some f) =
      (f.entries.take 10).map (mk_article [] hashFn net now f) := by
  simp only [scrape_rss_feed, List.any_nil, Bool.false_eq_true, if_false]
  exact filterMap_some_eq_map _ _

/-- Every article produced during a scrape pass carries the content preview
exactly when the store snapshot held at the start of the pass has fewer than 50
articles. -/
lemma content_of_mem (store : List Article) (hashFn : String → Int)
    (net : String → HttpResult) (now : String) (feeds : List (Option Feed))
    (a : Article) (ha : a ∈ all_new_articles store hashFn net now feeds) :
    a.content = if store.length < 50 then fetch_article_content (net a.link) else "" := by
  rcases List.mem_flatten.mp ha with ⟨chunk, hchunk, hmem⟩
  rcases List.mem_map.mp hchunk with ⟨res, _hres, rfl⟩
  cases res with
  | none => simp [scrape_rss_feed] at hmem
  | some feed =>
      simp only [scrape_rss_feed] at hmem
      rcases List.mem_filterMap.mp hmem with ⟨e, _he, hsome⟩
      by_cases hskip : store.any fun b => b.link == e.link
      · simp [hskip] at hsome
      · simp only [hskip, if_false, Option.some.injEq, Bool.false_eq_true] at hsome
        subst hsome
        simp [mk_article]

/-! ### Claims -/

/-- Claim C1: after every merge the store holds at most 100 articles, for any
prior store contents and any incoming list — the collection is sorted and then
truncated to the first 100 entries; the same bound holds for a whole scrape
pass. -/
theorem bounded_retention (store incoming : List Article) (hashFn : String → Int)
    (net : String → HttpResult) (now : String) (feeds : List (Option Feed)) :
    (mergeAndTrim store incoming).length ≤ 100
    ∧ (scrape_all_feeds store hashFn net now feeds).length ≤ 100 := by
  have h : ∀ l : List Article, (l.take 100).length ≤ 100 := by
    intro l
    simp only [List.length_take]
    omega
  exact ⟨h _, h _⟩

/-- Claim C2, counterexample: starting from an empty store (size 0 < 50 for the
whole pass, since the store is only updated after all feeds are scraped), a
pass over six feeds of ten entries each gives the 51st processed article (index
50) the non-empty content preview "x...", contradicting the claim that every
article processed after the 50th in a pass has empty content. -/
theorem content_budget_counterexample :
    ((all_new_articles [] (fun _ => 0) (fun _ => HttpResult.success 200 "x") "now"
        demo_feeds6).map Article.content)[50]? = some "x..."
    ∧ ("x..." : String) ≠ "" := by
  set l := all_new_articles [] (fun _ => 0) (fun _ => HttpResult.success 200 "x") "now"
    demo_feeds6 with hl
  have hlen : l.length = 60 := by
    rw [hl]
    simp [all_new_articles, demo_feeds6, demo_feed_at, scrape_empty_store]
  have h50 : 50 < l.length := by omega
  have hc := content_of_mem [] (fun _ => 0) (fun _ => HttpResult.success 200 "x") "now"
    demo_feeds6 (l.get ⟨50, h50⟩) (List.getElem_mem h50)
  refine ⟨?_, by decide⟩
  rw [List.getElem?_map, List.getElem?_eq_getElem h50, Option.map_some']
  simp only [List.get_eq_getElem] at hc
  rw [hc, if_pos (by decide), fetch_short 200 "x" (by decide)]
  decide

/-- Claim C2, amended: an article produced during a scrape pass carries the
content preview exactly when the size of the store snapshot at the start of the
pass is below 50; the across-all-feeds count of articles processed so far in
the pass plays no role (the condition `len(news_storage) < 50` reads the global
store, which does not change until the merge at the end of the pass). -/
theorem content_gated_by_store_size (store : List Article) (hashFn : String → Int)
    (net : String → HttpResult) (now : String) (feeds : List (Option Feed))
    (a : Article) (ha : a ∈ all_new_articles store hashFn net now feeds) :
    a.content = if store.length < 50 then fetch_article_content (net a.link) else "" :=
  content_of_mem store hashFn net now feeds a ha

/-- The article produced by scraping `demo_feed_small` against an empty store
with `demo_net` and hash function 0. -/
def demo_article : Article :=
  mk_article [] (fun _ => 0) demo_net "now" demo_feed0 (demo_entry 0)

/-- Witness for the amended claim C2 at a concrete input. -/
theorem content_gated_witness :
    demo_article ∈ all_new_articles [] (fun _ => 0) demo_net "now" [demo_feed_small]
    ∧ demo_article.content =
        if ([] : List Article).length < 50 then fetch_article_content (demo_net demo_article.link)
        else "" :=
  ⟨by simp [all_new_articles, demo_feed_small, scrape_empty_store, demo_feed0, demo_article],
    content_gated_by_store_size [] (fun _ => 0) demo_net "now" [demo_feed_small] demo_article
      (by simp [all_new_articles, demo_feed_small, scrape_empty_store, demo_feed0, demo_article])⟩

set_option maxRecDepth 2000 in
/-- Claim C3 evaluation: the id assigned to an article is `hash(entry.link)`
computed with the process's string hash function; two processes whose hash
functions differ (as Python's per-process salted string hashing does) assign
different ids to articles scraped from the very same feed, so the id is not a
function of the link alone. -/
theorem id_depends_on_process_hash :
    (all_new_articles [] (fun _ => 0) demo_net "now" [demo_feed_small]).map Article.id ≠
      (all_new_articles [] (fun _ => 1) demo_net "now" [demo_feed_small]).map Article.id := by
  decide

set_option maxRecDepth 2000 in
/-- Claim C4, counterexample: a completed HTTP response with status 404 does
not yield the empty string — `fetch_article_content` never inspects the status
code and returns the body preview. -/
theorem preview_non200_counterexample :
    fetch_article_content (HttpResult.success 404 "Not Found") = "Not Found..."
    ∧ fetch_article_content (HttpResult.success 404 "Not Found") ≠ "" := by
  rw [fetch_short 404 "Not Found" (by decide)]
  exact ⟨by decide, by decide⟩

/-- Claim C4, amended: for every completed HTTP response — whatever its status
code — `fetch_article_content` returns the first 500 characters of the body
followed by the truncation marker (hence a non-empty string); the empty string
is returned exactly when the request itself raises (timeout, DNS failure,
connection error), and the function is total, never raising to the caller. -/
theorem preview_contract (st : Nat) (body : String) :
    fetch_article_content (HttpResult.success st body) = body.take 500 ++ "..."
    ∧ fetch_article_content HttpResult.failure = ""
    ∧ fetch_article_content (HttpResult.success st body) ≠ "" := by
  refine ⟨rfl, rfl, ?_⟩
  intro h
  have h' : body.take 500 ++ "..." = "" := h
  have hlen := congrArg String.length h'
  rw [String.length_append] at hlen
  have h3 : ("..." : String).length = 3 := rfl
  have h0 : ("" : String).length = 0 := rfl
  omega

/-- Claim C5: `search_news` agrees with the spec-side `spec_search` on every
store and query; the empty query yields an empty result with total 0, and a
non-empty query returns exactly the stored articles matched case-insensitively
on title or summary. -/
theorem search_matches_spec (store : List Article) (q : String) :
    search_news store q = spec_search store q
    ∧ search_news store "" = { articles := [], total := 0 }
    ∧ ∀ a : Article, a ∈ (search_news store q).articles ↔ q ≠ "" ∧ a ∈ store ∧ ciMatch q a := by
  have hpt : ∀ a : Article,
      (pyIn q.toLower a.title.toLower || pyIn q.toLower a.summary.toLower) =
        decide (ciMatch q a) := by
    intro a
    simp [pyIn, ciMatch, Bool.decide_or]
  have hfil : store.filter
        (fun a => pyIn q.toLower a.title.toLower || pyIn q.toLower a.summary.toLower) =
      store.filter fun a => decide (ciMatch q a) :=
    List.filter_congr fun a _ => hpt a
  refine ⟨?_, by simp [search_news], ?_⟩
  · by_cases hq : q = ""
    · simp [search_news, spec_search, hq]
    · simp [search_news, spec_search, if_neg hq, hfil, List.countP_eq_length_filter]
  · intro a
    by_cases hq : q = ""
    · simp [search_news, hq]
    · simp [search_news, if_neg hq, hfil, List.mem_filter, hq, decide_eq_true_iff]

/-- Claim C9: a failed feed yields zero articles, and removing (or failing) one
feed of a pass leaves the articles produced by every other feed — and the
resulting store — unchanged: a single bad feed never aborts the pass. -/
theorem feed_failure_isolated (store : List Article) (hashFn : String → Int)
    (net : String → HttpResult) (now : String) (pre suf : List (Option Feed)) :
    scrape_rss_feed store hashFn net now none = []
    ∧ all_new_articles store hashFn net now (pre ++ none :: suf) =
        all_new_articles store hashFn net now pre ++ all_new_articles store hashFn net now suf
    ∧ scrape_all_feeds store hashFn net now (pre ++ none :: suf) =
        scrape_all_feeds store hashFn net now (pre ++ suf) := by
  refine ⟨rfl, ?_, ?_⟩
  · simp [all_new_articles, scrape_rss_feed]
  · simp [scrape_all_feeds, all_new_articles, scrape_rss_feed]

/-! ### Python slice semantics -/

lemma pySlice_of_nonneg {α : Type} (l : List α) (s m : Int) (hs : 0 ≤ s) (hm : 0 ≤ m) :
    pySlice l s (s + m) = (l.drop s.toNat).take m.toNat := by
  unfold pySlice
  rw [if_neg (by omega), if_neg (by omega), List.drop_take]
  rcases le_or_lt (l.length : Int) s with hc | hc
  · have h1 : (min s (l.length : Int)).toNat = l.length := by omega
    have h2 : l.length ≤ s.toNat := by omega
    rw [h1, List.drop_length, List.drop_eq_nil_of_le h2]
    simp
  · have h1 : (min s (l.length : Int)).toNat = s.toNat := by omega
    have h2 : (min (s + m) (l.length : Int)).toNat - s.toNat =
        min m.toNat (l.length - s.toNat) := by omega
    rw [h1, h2]
    refine List.take_eq_take.mpr ?_
    simp only [List.length_drop]
    omega

lemma pySlice_neg {α : Type} (l : List α) (s m : Int) (hs : s < 0) (hm : 0 ≤ m)
    (hstop : s + m < 0) (hb : 0 ≤ (l.length : Int) + s) :
    pySlice l s (s + m) = (l.drop ((l.length : Int) + s).toNat).take m.toNat := by
  unfold pySlice
  rw [if_pos hs, if_pos hstop, List.drop_take]
  have h1 : (max ((l.length : Int) + s) 0).toNat = ((l.length : Int) + s).toNat := by omega
  have h2 : (max ((l.length : Int) + (s + m)) 0).toNat - ((l.length : Int) + s).toNat =
      m.toNat := by omega
  rw [h1, h2]

/-- The reported page count `(t + n - 1) // n` is the ceiling of `t / n`,
characterised by the two inequalities `t <= n*q < t + n`. -/
lemma total_pages_ceil (t n : Int) (ht : 0 ≤ t) (hn : 1 ≤ n) :
    t ≤ n * Int.fdiv (t + n - 1) n ∧ n * Int.fdiv (t + n - 1) n < t + n := by
  have hmod := Int.fdiv_add_fmod (t + n - 1) n
  have h1 : 0 ≤ (t + n - 1).fmod n := Int.fmod_nonneg (by omega) (by omega)
  have h2 : (t + n - 1).fmod n < n := Int.fmod_lt_of_pos _ (by omega)
  constructor <;> linarith

lemma sorted_news_length (store : List Article) (key : Article → String) (desc : Bool) :
    (sorted_news store key desc).length = store.length := by
  simp [sorted_news, List.length_mergeSort]

lemma get_news_total_pages (store : List Article) (key : Article → String) (desc : Bool)
    (p n : Int) :
    (get_news store key desc p n).total_pages =
      Int.fdiv ((store.length : Int) + n - 1) n := by
  show Int.fdiv (((sorted_news store key desc).length : Int) + n - 1) n = _
  rw [sorted_news_length]

/-- Claim C6: for `page >= 1` and `per_page >= 1`, `get_news` returns the slice
`sorted[(p-1)*n : p*n]` of the full sorted order, `total` is the collection
size, and `total_pages` is the ceiling of `total / n` (characterised by
`total <= n * total_pages < total + n`). -/
theorem pagination_correct (store : List Article) (key : Article → String) (desc : Bool)
    (p n : Int) (hp : 1 ≤ p) (hn : 1 ≤ n) :
    (get_news store key desc p n).articles =
      ((sorted_news store key desc).drop ((p - 1) * n).toNat).take n.toNat
    ∧ (get_news store key desc p n).total = store.length
    ∧ (store.length : Int) ≤ n * (get_news store key desc p n).total_pages
    ∧ n * (get_news store key desc p n).total_pages < (store.length : Int) + n := by
  have hceil := total_pages_ceil (store.length : Int) n (Int.natCast_nonneg _) hn
  have htp := get_news_total_pages store key desc p n
  refine ⟨?_, ?_, ?_, ?_⟩
  · exact pySlice_of_nonneg (sorted_news store key desc) ((p - 1) * n) n
      (mul_nonneg (by omega) (by omega)) (by omega)
  · exact sorted_news_length store key desc
  · rw [htp]
    exact hceil.1
  · rw [htp]
    exact hceil.2

/-- Witness for claim C6 at a concrete input. -/
theorem pagination_correct_witness :
    ((1 : Int) ≤ 2 ∧ (1 : Int) ≤ 2)
    ∧ (get_news demo_store Article.published true 2 2).total = 3 :=
  ⟨by omega,
    (pagination_correct demo_store Article.published true 2 2 (by omega) (by omega)).2.1⟩

/-- Claim C10: `get_news` does not reject non-positive pages.  `page = 0` gives
an empty slice while `total` and `total_pages` still describe the whole
collection, and a negative page (within the wrap-around bound) slices relative
to the end of the sorted collection instead of raising an error. -/
theorem page_nonpositive (store : List Article) (key : Article → String) (desc : Bool)
    (p n : Int) (hn : 1 ≤ n) (hp : p ≤ -1)
    (hb : 0 ≤ (store.length : Int) + (p - 1) * n) :
    (get_news store key desc 0 n).articles = []
    ∧ (get_news store key desc 0 n).total = store.length
    ∧ (store.length : Int) ≤ n * (get_news store key desc 0 n).total_pages
    ∧ n * (get_news store key desc 0 n).total_pages < (store.length : Int) + n
    ∧ (get_news store key desc p n).articles =
        ((sorted_news store key desc).drop
          ((store.length : Int) + (p - 1) * n).toNat).take n.toNat := by
  have hceil := total_pages_ceil (store.length : Int) n (Int.natCast_nonneg _) hn
  have htp := get_news_total_pages store key desc 0 n
  refine ⟨?_, sorted_news_length store key desc, by rw [htp]; exact hceil.1,
    by rw [htp]; exact hceil.2, ?_⟩
  · show pySlice (sorted_news store key desc) ((0 - 1) * n) ((0 - 1) * n + n) = []
    unfold pySlice
    rw [if_pos (by omega), if_neg (by omega)]
    have he : (min ((0 - 1) * n + n) ((sorted_news store key desc).length : Int)).toNat
        = 0 := by omega
    rw [he]
    simp
  · have hsneg : (p - 1) * n < 0 :=
      mul_neg_of_neg_of_pos (by omega) (by omega)
    have hstop : (p - 1) * n + n < 0 := by
      have hpn : (p - 1) * n + n = p * n := by ring
      rw [hpn]
      exact mul_neg_of_neg_of_pos (by omega) (by omega)
    have hb' : 0 ≤ ((sorted_news store key desc).length : Int) + (p - 1) * n := by
      rw [sorted_news_length]
      exact hb
    have hres := pySlice_neg (sorted_news store key desc) ((p - 1) * n) n hsneg
      (by omega) hstop hb'
    show pySlice (sorted_news store key desc) ((p - 1) * n) ((p - 1) * n + n) = _
    rw [hres, sorted_news_length]

/-- Witness for claim C10 at a concrete input. -/
theorem page_nonpositive_witness :
    ((1 : Int) ≤ 1 ∧ (-1 : Int) ≤ -1 ∧ 0 ≤ (demo_store.length : Int) + (-1 - 1) * 1)
    ∧ (get_news demo_store Article.published true 0 1).articles = [] :=
  ⟨⟨by omega, by omega, by decide⟩,
    (page_nonpositive demo_store Article.published true (-1) 1 (by omega) (by omega)
      (by decide)).1⟩

/-! ### Lemmas about the merge-upsert loop -/

lemma upsert_cons_pos (b : Article) (s : List Article) (a : Article) (hb : b.id = a.id) :
    upsert (b :: s) a = a :: s := by
  simp [upsert, hb]

lemma upsert_cons_neg (b : Article) (s : List Article) (a : Article) (hb : ¬b.id = a.id) :
    upsert (b :: s) a = b :: upsert s a := by
  simp [upsert, hb]

lemma upsert_ids_mem (s : List Article) (a : Article) (x : Int) :
    x ∈ (upsert s a).map Article.id ↔ x = a.id ∨ x ∈ s.map Article.id := by
  induction s with
  | nil => simp [upsert]
  | cons b s ih =>
      by_cases hb : b.id = a.id
      · rw [upsert_cons_pos b s a hb]
        simp only [List.map_cons, List.mem_cons, hb]
        tauto
      · rw [upsert_cons_neg b s a hb]
        simp only [List.map_cons, List.mem_cons, ih]
        tauto

lemma upsert_ids_nodup (s : List Article) (a : Article)
    (h : (s.map Article.id).Nodup) : ((upsert s a).map Article.id).Nodup := by
  induction s with
  | nil => simp [upsert]
  | cons b s ih =>
      simp only [List.map_cons, List.nodup_cons] at h
      by_cases hb : b.id = a.id
      · rw [upsert_cons_pos b s a hb]
        simp only [List.map_cons, List.nodup_cons]
        exact ⟨hb ▸ h.1, h.2⟩
      · rw [upsert_cons_neg b s a hb]
        simp only [List.map_cons, List.nodup_cons]
        refine ⟨?_, ih h.2⟩
        rw [upsert_ids_mem]
        rintro (hc | hc)
        · exact hb hc
        · exact h.1 hc

lemma mem_upsert_self (s : List Article) (a : Article) : a ∈ upsert s a := by
  induction s with
  | nil => simp [upsert]
  | cons b s ih =>
      by_cases hb : b.id = a.id
      · rw [upsert_cons_pos b s a hb]
        exact List.mem_cons_self a s
      · rw [upsert_cons_neg b s a hb]
        exact List.mem_cons_of_mem b ih

lemma mem_of_mem_upsert (s : List Article) (a b : Article) (h : b ∈ upsert s a) :
    b = a ∨ b ∈ s := by
  induction s with
  | nil => simpa [upsert] using h
  | cons c s ih =>
      by_cases hc : c.id = a.id
      · rw [upsert_cons_pos c s a hc] at h
        rcases List.mem_cons.mp h with rfl | h
        · exact Or.inl rfl
        · exact Or.inr (List.mem_cons_of_mem c h)
      · rw [upsert_cons_neg c s a hc] at h
        rcases List.mem_cons.mp h with rfl | h
        · exact Or.inr (List.mem_cons_self b s)
        · rcases ih h with h' | h'
          · exact Or.inl h'
          · exact Or.inr (List.mem_cons_of_mem c h')

lemma upsert_of_not_mem (s : List Article) (a : Article)
    (h : a.id ∉ s.map Article.id) : upsert s a = s ++ [a] := by
  induction s with
  | nil => simp [upsert]
  | cons b s ih =>
      simp only [List.map_cons, List.mem_cons] at h
      push_neg at h
      rw [upsert_cons_neg b s a fun e => h.1 e.symm, ih h.2, List.cons_append]

lemma upsert_of_unique_mem (s : List Article) (a : Article)
    (huniq : ∀ b ∈ s, b.id = a.id → b = a) (hmem : a.id ∈ s.map Article.id) :
    upsert s a = s := by
  induction s with
  | nil => simp at hmem
  | cons b s ih =>
      by_cases hb : b.id = a.id
      · have hba : b = a := huniq b (List.mem_cons_self b s) hb
        rw [upsert_cons_pos b s a hb, hba]
      · rw [upsert_cons_neg b s a hb]
        have hmem' : a.id ∈ s.map Article.id := by
          simp only [List.map_cons, List.mem_cons] at hmem
          rcases hmem with h | h
          · exact absurd h.symm hb
          · exact h
        rw [ih (fun c hc hcid => huniq c (List.mem_cons_of_mem b hc) hcid) hmem']

lemma upsert_unique (s : List Article) (a : Article) (hnd : (s.map Article.id).Nodup) :
    ∀ b ∈ upsert s a, b.id = a.id → b = a := by
  induction s with
  | nil =>
      intro b hb _
      simpa [upsert] using hb
  | cons c s ih =>
      simp only [List.map_cons, List.nodup_cons] at hnd
      by_cases hc : c.id = a.id
      · rw [upsert_cons_pos c s a hc]
        intro b hb hbid
        rcases List.mem_cons.mp hb with rfl | hb
        · rfl
        · exact absurd (List.mem_map.mpr ⟨b, hb, hbid.trans hc.symm⟩) hnd.1
      · rw [upsert_cons_neg c s a hc]
        intro b hb hbid
        rcases List.mem_cons.mp hb with rfl | hb
        · exact absurd hbid hc
        · exact ih hnd.2 b hb hbid

lemma mergeInto_ids_toFinset (L : List Article) :
    ∀ s : List Article, ((mergeInto s L).map Article.id).toFinset =
      (s.map Article.id).toFinset ∪ (L.map Article.id).toFinset := by
  induction L with
  | nil =>
      intro s
      simp [mergeInto]
  | cons a L ih =>
      intro s
      have hstep : mergeInto s (a :: L) = mergeInto (upsert s a) L := rfl
      rw [hstep, ih]
      ext x
      simp only [Finset.mem_union, List.mem_toFinset, upsert_ids_mem, List.map_cons,
        List.mem_cons]
      tauto

lemma mergeInto_ids_nodup (L : List Article) :
    ∀ s : List Article, (s.map Article.id).Nodup →
      ((mergeInto s L).map Article.id).Nodup := by
  induction L with
  | nil =>
      intro s h
      exact h
  | cons a L ih =>
      intro s h
      exact ih _ (upsert_ids_nodup s a h)

lemma mergeInto_nil_length (L : List Article) :
    (mergeInto [] L).length = ((L.map Article.id).toFinset).card := by
  have hnd := mergeInto_ids_nodup L [] (by simp)
  have hcard := List.toFinset_card_of_nodup hnd
  rw [List.length_map] at hcard
  rw [← hcard, mergeInto_ids_toFinset L []]
  simp

/-- Claim C7: starting from an empty store, a pass over two feeds of ten
entries each, with exactly three shared link values and an id hash injective on
the links involved, leaves exactly 17 articles in the store: cross-feed
duplicates collapse during the merge even though the per-feed link check only
consults the store snapshot from the start of the pass. -/
theorem cross_feed_dedup (f1 f2 : Feed) (hashFn : String → Int)
    (net : String → HttpResult) (now : String)
    (h1 : f1.entries.length = 10) (h2 : f2.entries.length = 10)
    (nd1 : (f1.entries.map Entry.link).Nodup) (nd2 : (f2.entries.map Entry.link).Nodup)
    (hinter : ((f1.entries.map Entry.link).toFinset ∩
        (f2.entries.map Entry.link).toFinset).card = 3)
    (hinj : ∀ x ∈ (f1.entries ++ f2.entries).map Entry.link,
        ∀ y ∈ (f1.entries ++ f2.entries).map Entry.link, hashFn x = hashFn y → x = y) :
    (scrape_all_feeds [] hashFn net now [some f1, some f2]).length = 17 := by
  have hA1 : scrape_rss_feed [] hashFn net now (some f1) =
      f1.entries.map (mk_article [] hashFn net now f1) := by
    rw [scrape_empty_store, List.take_of_length_le (by omega)]
  have hA2 : scrape_rss_feed [] hashFn net now (some f2) =
      f2.entries.map (mk_article [] hashFn net now f2) := by
    rw [scrape_empty_store, List.take_of_length_le (by omega)]
  have hall : all_new_articles [] hashFn net now [some f1, some f2] =
      f1.entries.map (mk_article [] hashFn net now f1) ++
        f2.entries.map (mk_article [] hashFn net now f2) := by
    simp [all_new_articles, hA1, hA2]
  have hids : (f1.entries.map (mk_article [] hashFn net now f1) ++
      f2.entries.map (mk_article [] hashFn net now f2)).map Article.id =
      ((f1.entries ++ f2.entries).map Entry.link).map hashFn := by
    simp only [List.map_append, List.map_map]
    rfl
  have himg : (((f1.entries ++ f2.entries).map Entry.link).map hashFn).toFinset =
      ((f1.entries ++ f2.entries).map Entry.link).toFinset.image hashFn := by
    ext x
    simp
    constructor
    · rintro (⟨a, ha, rfl⟩ | ⟨a, ha, rfl⟩)
      · exact ⟨a.link, Or.inl ⟨a, ha, rfl⟩, rfl⟩
      · exact ⟨a.link, Or.inr ⟨a, ha, rfl⟩, rfl⟩
    · rintro ⟨s, (⟨a, ha, rfl⟩ | ⟨a, ha, rfl⟩), rfl⟩
      · exact Or.inl ⟨a, ha, rfl⟩
      · exact Or.inr ⟨a, ha, rfl⟩
  have hinjOn : Set.InjOn hashFn ↑((f1.entries ++ f2.entries).map Entry.link).toFinset := by
    intro x hx y hy hxy
    exact hinj x (by simpa using hx) y (by simpa using hy) hxy
  have hsplit : ((f1.entries ++ f2.entries).map Entry.link).toFinset =
      (f1.entries.map Entry.link).toFinset ∪ (f2.entries.map Entry.link).toFinset := by
    simp [List.map_append]
  have hc1 : (f1.entries.map Entry.link).toFinset.card = 10 := by
    rw [List.toFinset_card_of_nodup nd1, List.length_map, h1]
  have hc2 : (f2.entries.map Entry.link).toFinset.card = 10 := by
    rw [List.toFinset_card_of_nodup nd2, List.length_map, h2]
  have hcup := Finset.card_union_add_card_inter (f1.entries.map Entry.link).toFinset
    (f2.entries.map Entry.link).toFinset
  show (mergeAndTrim [] (all_new_articles [] hashFn net now [some f1, some f2])).length = 17
  unfold mergeAndTrim
  rw [List.length_take, List.length_mergeSort, hall, mergeInto_nil_length, hids, himg,
    Finset.card_image_of_injOn hinjOn, hsplit]
  omega

/-- A link of length `k`. -/
def wlink (k : Nat) : String := String.mk (List.replicate k 'a')

/-- An entry whose link is `wlink k`. -/
def wentry (k : Nat) : Entry :=
  { title := "t", link := wlink k, summary := none, published := none }

/-- Witness feed 1: links of lengths 1 to 10. -/
def wfeed1 : Feed :=
  { title := none
    entries := [wentry 1, wentry 2, wentry 3, wentry 4, wentry 5, wentry 6, wentry 7,
      wentry 8, wentry 9, wentry 10] }

/-- Witness feed 2: shares the links of lengths 8, 9, 10 with feed 1, plus
seven fresh links of lengths 11 to 17. -/
def wfeed2 : Feed :=
  { title := none
    entries := [wentry 8, wentry 9, wentry 10, wentry 11, wentry 12, wentry 13, wentry 14,
      wentry 15, wentry 16, wentry 17] }

/-- A deterministic id hash, injective on the witness links. -/
def whash : String → Int := fun s => Int.ofNat s.length

set_option maxRecDepth 4000 in
/-- Witness for claim C7 at a concrete input. -/
theorem cross_feed_dedup_witness :
    (wfeed1.entries.length = 10 ∧ wfeed2.entries.length = 10
      ∧ ((wfeed1.entries.map Entry.link).toFinset ∩
          (wfeed2.entries.map Entry.link).toFinset).card = 3)
    ∧ (scrape_all_feeds [] whash demo_net "now" [some wfeed1, some wfeed2]).length = 17 :=
  ⟨⟨by decide, by decide, by decide⟩,
    cross_feed_dedup wfeed1 wfeed2 whash demo_net "now" (by decide) (by decide) (by decide)
      (by decide) (by decide) (by decide)⟩

/-! ### Merge idempotence -/

lemma pubDescLe_trans (a b c : Article) (h1 : pubDescLe a b = true)
    (h2 : pubDescLe b c = true) : pubDescLe a c = true := by
  simp only [pubDescLe, decide_eq_true_eq] at h1 h2 ⊢
  exact le_trans h2 h1

lemma pubDescLe_total (a b : Article) : (pubDescLe a b || pubDescLe b a) = true := by
  simp only [pubDescLe, Bool.or_eq_true, decide_eq_true_eq]
  exact le_total b.published a.published

/-- Claim C8: merging an article whose id is already stored replaces the record
in place, so a second merge of the same article changes neither the contents
nor the size of the store.  The hypothesis is the store's documented invariant
that ids are unique. -/
theorem merge_idempotent (s : List Article) (a : Article)
    (hnd : (s.map Article.id).Nodup) :
    mergeAndTrim (mergeAndTrim s [a]) [a] = mergeAndTrim s [a] := by
  have hstep : ∀ t : List Article, mergeInto t [a] = upsert t a := fun t => rfl
  set U := upsert s a with hU
  set X := U.mergeSort pubDescLe with hX
  set S1 := X.take 100 with hS1
  have hfirst : mergeAndTrim s [a] = S1 := rfl
  have hXperm : X.Perm U := List.mergeSort_perm U pubDescLe
  have hsortX : X.Pairwise fun x y => pubDescLe x y = true :=
    List.sorted_mergeSort pubDescLe_trans pubDescLe_total U
  have hndU : (U.map Article.id).Nodup := upsert_ids_nodup s a hnd
  have hndX : (X.map Article.id).Nodup := ((hXperm.symm).map Article.id).nodup hndU
  have hsubS1 : S1.Sublist X := List.take_sublist 100 X
  have hsortS1 : S1.Pairwise fun x y => pubDescLe x y = true :=
    List.Pairwise.sublist hsubS1 hsortX
  have hlenS1 : S1.length ≤ 100 := by
    rw [hS1, List.length_take]
    omega
  rw [hfirst]
  show ((mergeInto S1 [a]).mergeSort pubDescLe).take 100 = S1
  rw [hstep S1]
  by_cases hmem : a.id ∈ S1.map Article.id
  · have huniqS1 : ∀ b ∈ S1, b.id = a.id → b = a := fun b hb hbid =>
      upsert_unique s a hnd b (hXperm.subset (hsubS1.subset hb)) hbid
    rw [upsert_of_unique_mem S1 a huniqS1 hmem, List.mergeSort_of_sorted hsortS1,
      List.take_of_length_le hlenS1]
  · have happ : upsert S1 a = S1 ++ [a] := upsert_of_not_mem S1 a hmem
    have haX : a ∈ X := hXperm.mem_iff.mpr (mem_upsert_self s a)
    have haS1 : a ∉ S1 := fun h => hmem (List.mem_map.mpr ⟨a, h, rfl⟩)
    have hsplitX : S1 ++ X.drop 100 = X := List.take_append_drop 100 X
    have haDrop : a ∈ X.drop 100 := by
      have h' : a ∈ S1 ++ X.drop 100 := by
        rw [hsplitX]
        exact haX
      rcases List.mem_append.mp h' with h | h
      · exact absurd h haS1
      · exact h
    have hlen100 : S1.length = 100 := by
      have hpos : 0 < (X.drop 100).length :=
        List.length_pos.mpr (List.ne_nil_of_mem haDrop)
      rw [List.length_drop] at hpos
      rw [hS1, List.length_take]
      omega
    have hsortApp : (S1 ++ X.drop 100).Pairwise fun x y => pubDescLe x y = true := by
      rw [hsplitX]
      exact hsortX
    have hcross := (List.pairwise_append.mp hsortApp).2.2
    have hsorted2 : (S1 ++ [a]).Pairwise fun x y => pubDescLe x y = true := by
      rw [List.pairwise_append]
      refine ⟨hsortS1, by simp, ?_⟩
      intro b hb c hc
      have hc' : c = a := List.mem_singleton.mp hc
      rw [hc']
      exact hcross b hb a haDrop
    rw [happ, List.mergeSort_of_sorted hsorted2]
    have htake : (S1 ++ [a]).take 100 = S1 := by
      simp [hlen100]
    rw [htake]

/-- Witness for claim C8 at a concrete input. -/
theorem merge_idempotent_witness :
    (demo_store.map Article.id).Nodup
    ∧ mergeAndTrim (mergeAndTrim demo_store [demo_article]) [demo_article] =
        mergeAndTrim demo_store [demo_article] :=
  ⟨by decide, merge_idempotent demo_store demo_article (by decide)⟩

end AINews
